import Mathlib

/-!
Simple-Web-Server: request parsing and response resolution

A shallow embedding of `src/server.c`: the request-line parser `parse_uri`, the
resolver `create_response` with its helpers `get_full_path` and `get_extension`,
and the part of `do_work` that ties them together.

A C string is represented by the list of its characters before the terminating
NUL.  A `char *` into a string is represented by its offset from the start of
that string, and a possibly-NULL pointer by an `Option`.
-/

namespace SimpleWebServer

/-! ## Data model -/

/-- The ways in which a call fails to return a value fixed by the source. -/
inductive Fault
  /-- A NULL pointer is handed to `strstr` or `strcmp`, which read through it. -/
  | null_dereference
  /-- The call `exit(1)` after "Type of request not supported" (lines 203-204):
  the only rejection the source performs. -/
  | exit_failure
  /-- The copy loop of `parse_uri` leaves the behaviour that C defines: its `int`
  counter overflows, or it writes past the block it allocated.  The source makes
  no check and fixes nothing of what follows; the worker may crash as well as
  return some target. -/
  | undefined_behaviour
  deriving DecidableEq, Repr

/-- The struct `http_response` (lines 15-20). -/
structure http_response where
  code : List Char
  content_type : List Char
  file : List Char
  deriving DecidableEq, Repr

/-! ## Constants (the `#define`s of the source) -/

def BASE_DIR : List Char := "public".toList
def VERB_GET : List Char := "GET ".toList
def VERB_GET_LEN : Nat := VERB_GET.length
def HTTP_PARAM : List Char := "?".toList
def HTTP_PROTOCOL : List Char := " HTTP/1".toList
def HTTP_200 : List Char := "HTTP/1.1 200 OK\r\n".toList
def HTTP_400 : List Char := "HTTP/1.1 400 Bad Request\r\n".toList
def HTTP_404 : List Char := "HTTP/1.1 404 Not Found\r\n".toList
def BAD_STRING : List Char := "..".toList

/-- The largest value of an `int` (32 bits). -/
def INT_MAX : Nat := 2147483647

/-- The largest value of a `size_t` (64 bits). -/
def SIZE_MAX : Nat := 18446744073709551615

/-- The macro `CONTENT_TYPE(type)` (line 243): plain juxtaposition of three literals. -/
def CONTENT_TYPE (type : List Char) : List Char :=
  "Content-Type:".toList ++ type ++ "charset=UTF-8\r\n".toList

/-! ## Library functions -/

/-- The C library `strstr`: offset of the first occurrence of `needle` in
`haystack`, or `none` (NULL) when there is none. -/
def strstr : List Char → List Char → Option Nat
  | [], needle => if needle = [] then some 0 else none
  | c :: rest, needle =>
    if needle.isPrefixOf (c :: rest) then some 0
    else (strstr rest needle).map (· + 1)

/-- The C library `strrchr`: offset of the last occurrence of `c` in `s`, or
`none` (NULL) when `c` does not occur. -/
def strrchr : List Char → Char → Option Nat
  | [], _ => none
  | x :: rest, c =>
    match strrchr rest c with
    | some i => some (i + 1)
    | none => if x = c then some 0 else none

/-! ## The functions of `server.c` -/

/-- The function `parse_uri` (lines 191-218).

Both `strstr(pos_get, ...)` calls of lines 195-196 run before the guard of line
201, so a request without the method token hands NULL to `strstr`.

The length `len` of line 209 is the pointer difference `pos_end - pos_start`
stored in a `size_t`, that is, taken modulo `SIZE_MAX + 1`; a negative
difference becomes a length close to `SIZE_MAX`.  The copy loop of lines
211-214 counts with an `int` that it compares with `len`: it copies the `len`
characters that start at `pos_start` when `len` is at most `INT_MAX`, and its
counter overflows otherwise (for a negative difference it has by then also
written past the block of `len + 1` bytes modulo `SIZE_MAX + 1` allocated at
line 210).  The allocation itself is taken to succeed. -/
def parse_uri (request : List Char) : Except Fault (List Char) :=
  match strstr request VERB_GET with
  | none => .error .null_dereference
  | some pos_get =>
    let pos_param := (strstr (request.drop pos_get) HTTP_PARAM).map (pos_get + ·)
    let pos_http := (strstr (request.drop pos_get) HTTP_PROTOCOL).map (pos_get + ·)
    match pos_http with
    | none => .error .exit_failure
    | some pos_http =>
      let pos_start := pos_get + VERB_GET_LEN
      let pos_end :=
        match pos_param with
        | some p => if p > pos_start ∧ p < pos_http then p else pos_http
        | none => pos_http
      let len : Nat := (((pos_end : Int) - (pos_start : Int)) % ((SIZE_MAX : Int) + 1)).toNat
      if len ≤ INT_MAX then .ok ((request.drop pos_start).take len)
      else .error .undefined_behaviour

/-- The function `get_full_path` (lines 222-230). -/
def get_full_path (path : List Char) : List Char :=
  BASE_DIR ++ path

/-- The function `get_extension` (lines 232-238): the text after the last dot,
or `none` (NULL) when the path has no dot. -/
def get_extension (path : List Char) : Option (List Char) :=
  match strrchr path '.' with
  | none => none
  | some dot => some (path.drop (dot + 1))

/-- The function `create_response` (lines 247-307).  The file system enters
through `fopen`: `fopen p` tells whether `fopen(p, "r")` succeeds.  Each
`strcmp(ext, ...)` reads through `ext`, which is NULL when the path has no dot. -/
def create_response (fopen : List Char → Bool) (uri : List Char) :
    Except Fault http_response :=
  let path := if uri = "/".toList then "/index.html".toList else uri
  if uri = BAD_STRING then
    .ok { code := HTTP_400
          content_type := CONTENT_TYPE "text/html;".toList
          file := "/400.html".toList }
  else
    let full_path := get_full_path path
    if fopen full_path then
      match get_extension path with
      | none => .error .null_dereference
      | some ext =>
        .ok { code := HTTP_200
              file := path
              content_type :=
                if ext = "html".toList then CONTENT_TYPE "text/html;".toList
                else if ext = "js".toList then CONTENT_TYPE "text/javascript;".toList
                else if ext = "css".toList then CONTENT_TYPE "text/css;".toList
                else if ext = "ico".toList then CONTENT_TYPE "image/icon;".toList
                else if ext = "jpg".toList then CONTENT_TYPE "image/jpg;".toList
                else if ext = "jpeg".toList then CONTENT_TYPE "image/jpeg;".toList
                else if ext = "png".toList then CONTENT_TYPE "image/png;".toList
                else if ext = "gif".toList then CONTENT_TYPE "image/gif;".toList
                else if ext = "pdf".toList then CONTENT_TYPE "application/pdf;".toList
                else CONTENT_TYPE "application/octet-stream;".toList }
    else
      .ok { code := HTTP_404
            content_type := CONTENT_TYPE "text/html;".toList
            file := "/404.html".toList }

/-- The resolution part of `do_work` (lines 130-135): the request is parsed, the
response is created from the parsed target, and the body file of the response is
resolved against the root. -/
def do_work (fopen : List Char → Bool) (request : List Char) :
    Except Fault (http_response × List Char) :=
  match parse_uri request with
  | .error f => .error f
  | .ok uri =>
    match create_response fopen uri with
    | .error f => .error f
    | .ok response => .ok (response, get_full_path response.file)

/-! ## Definitions used to state the properties -/

/-- The target the specification describes: the text that follows the first
method token, up to the first protocol marker found in that text, cut at the
first query delimiter lying between the method token and that marker. -/
def spec_target (request : List Char) : Option (List Char) :=
  match strstr request VERB_GET with
  | none => none
  | some g =>
    let rest := request.drop (g + VERB_GET_LEN)
    match strstr rest HTTP_PROTOCOL with
    | none => none
    | some h => some ((rest.take h).takeWhile (fun c => c != '?'))

/-- The extension table of the specification: each extension with its MIME
string. -/
def content_type_table : List (List Char × List Char) :=
  [ ("html".toList, "text/html".toList),
    ("js".toList, "text/javascript".toList),
    ("css".toList, "text/css".toList),
    ("ico".toList, "image/icon".toList),
    ("jpg".toList, "image/jpg".toList),
    ("jpeg".toList, "image/jpeg".toList),
    ("png".toList, "image/png".toList),
    ("gif".toList, "image/gif".toList),
    ("pdf".toList, "application/pdf".toList) ]

/-- The copy of lines 209-217 of `parse_uri`, for a target that is the first
`n` characters of `rest`: the length is a `size_t` and the loop counter an
`int`. -/
def copy_target (rest : List Char) (n : Nat) : Except Fault (List Char) :=
  if n % (SIZE_MAX + 1) ≤ INT_MAX then .ok (rest.take (n % (SIZE_MAX + 1)))
  else .error .undefined_behaviour

/-- The outcome of `parse_uri` written over the text `rest` that follows the
first method token, all offsets being counted from the start of `rest`; the
theorem `parse_uri_eq_parse_after` shows that `parse_uri` computes it. -/
def parse_after (rest : List Char) : Except Fault (List Char) :=
  if HTTP_PROTOCOL <+: ' ' :: rest then .error .undefined_behaviour
  else
    match strstr rest HTTP_PROTOCOL with
    | none => .error .exit_failure
    | some h =>
      match strstr rest HTTP_PARAM with
      | some q => if 0 < q ∧ q < h then copy_target rest q else copy_target rest h
      | none => copy_target rest h

/-! ## Facts about `strstr` -/

/-- An offset returned by `strstr` is the start of an occurrence of the needle. -/
theorem strstr_some_drop (needle : List Char) :
    ∀ (s : List Char) (i : Nat), strstr s needle = some i →
      s.drop i = needle ++ s.drop (i + needle.length)
  | [], i, h => by
    rw [strstr] at h
    split at h
    · rename_i hn; subst hn; simp
    · cases h
  | c :: rest, i, h => by
    rw [strstr] at h
    split at h
    · rename_i hp
      cases h
      rw [List.isPrefixOf_iff_prefix] at hp
      obtain ⟨t, ht⟩ := hp
      rw [← ht]; simp
    · cases hr : strstr rest needle with
      | none => rw [hr] at h; cases h
      | some j =>
        rw [hr] at h
        simp only [Option.map_some'] at h
        cases h
        have := strstr_some_drop needle rest j hr
        simpa [Nat.add_right_comm] using this

/-- No occurrence starts before the offset returned by `strstr`. -/
theorem strstr_some_first (needle : List Char) :
    ∀ (s : List Char) (i : Nat), strstr s needle = some i →
      ∀ j, j < i → ¬ needle <+: s.drop j
  | [], i, h => by
    rw [strstr] at h
    split at h
    · cases h; intro j hj; omega
    · cases h
  | c :: rest, i, h => by
    rw [strstr] at h
    split at h
    · cases h; intro j hj; omega
    · rename_i hp
      cases hr : strstr rest needle with
      | none => rw [hr] at h; cases h
      | some k =>
        rw [hr] at h
        simp only [Option.map_some'] at h
        cases h
        intro j hj
        cases j with
        | zero =>
          rw [List.drop_zero, ← List.isPrefixOf_iff_prefix]
          exact hp
        | succ j =>
          rw [List.drop_succ_cons]
          exact strstr_some_first needle rest k hr j (by omega)

/-- The function `strstr` returns NULL exactly when the needle does not occur. -/
theorem strstr_eq_none_iff (needle : List Char) :
    ∀ (s : List Char), strstr s needle = none ↔ ¬ needle <:+: s
  | [] => by
    rw [strstr]
    constructor
    · intro h hin
      have : needle = [] := List.eq_nil_of_infix_nil hin
      simp [this] at h
    · intro h
      split
      · rename_i hn; subst hn; exact absurd List.nil_infix h
      · rfl
  | c :: rest => by
    rw [strstr]
    constructor
    · intro h hin
      split at h
      · cases h
      · rename_i hp
        rw [Option.map_eq_none'] at h
        rw [List.infix_cons_iff] at hin
        rcases hin with hin | hin
        · exact hp (List.isPrefixOf_iff_prefix.mpr hin)
        · exact (strstr_eq_none_iff needle rest).mp h hin
    · intro h
      have h1 : ¬ needle <+: c :: rest := fun hp => h hp.isInfix
      have h2 : ¬ needle <:+: rest := fun hp => h (List.infix_cons hp)
      rw [if_neg (by rwa [List.isPrefixOf_iff_prefix]), (strstr_eq_none_iff needle rest).mpr h2]
      rfl

/-- A needle that is a prefix of `s ++ r` without occurring in `s` reaches into `r`. -/
theorem prefix_append_reach {needle s r : List Char}
    (hp : needle <+: s ++ r) (hs : ¬ needle <:+: s) :
    ∃ x u, needle = s ++ x :: u ∧ (x :: u) <+: r := by
  rcases List.prefix_or_prefix_of_prefix hp (List.prefix_append s r) with h | h
  · exact absurd h.isInfix hs
  · obtain ⟨u, hu⟩ := h
    cases u with
    | nil =>
      rw [List.append_nil] at hu
      exact absurd (hu ▸ List.infix_refl s) hs
    | cons x u =>
      refine ⟨x, u, hu.symm, ?_⟩
      rw [← hu] at hp
      exact (List.prefix_append_right_inj s).mp hp

/-- Searching past a stretch `s` that holds no occurrence and a separator `c`
that is not part of the needle. -/
theorem strstr_skip (needle : List Char) (c : Char) (t : List Char) (hc : c ∉ needle) :
    ∀ (s : List Char), ¬ needle <:+: s →
      strstr (s ++ c :: t) needle = (strstr t needle).map (· + (s.length + 1))
  | [], hs => by
    have hp : ¬ needle <+: c :: t := by
      intro hp
      obtain ⟨x, u, hn, hu⟩ := prefix_append_reach (s := []) hp hs
      have hx : x = c := by
        obtain ⟨w, hw⟩ := hu
        simp at hw; exact hw.1
      subst hx
      exact hc (by simp [hn])
    rw [List.nil_append, strstr, if_neg (by rwa [List.isPrefixOf_iff_prefix])]
    simp
  | y :: s, hs => by
    have hp : ¬ needle <+: (y :: s) ++ c :: t := by
      intro hp
      obtain ⟨x, u, hn, hu⟩ := prefix_append_reach hp hs
      have hx : x = c := by
        obtain ⟨w, hw⟩ := hu
        simp at hw; exact hw.1
      subst hx
      exact hc (by simp [hn])
    have hs2 : ¬ needle <:+: s := fun h => hs (List.infix_cons h)
    rw [List.cons_append, strstr, if_neg (by rwa [List.isPrefixOf_iff_prefix, ← List.cons_append]),
      strstr_skip needle c t hc s hs2]
    cases strstr t needle <;> simp [Nat.add_assoc]

/-- The first occurrence of a needle whose first character does not recur in it,
in a text that holds no occurrence before the one written out. -/
theorem strstr_at (a : Char) (n t : List Char) (ha : a ∉ n) :
    ∀ (s : List Char), ¬ (a :: n) <:+: s →
      strstr (s ++ (a :: n) ++ t) (a :: n) = some s.length
  | [], _ => by
    rw [List.nil_append, List.cons_append, strstr, if_pos]
    · rfl
    · rw [List.isPrefixOf_iff_prefix, ← List.cons_append]
      exact List.prefix_append _ _
  | y :: s, hs => by
    have hp : ¬ (a :: n) <+: (y :: s) ++ ((a :: n) ++ t) := by
      intro hp
      obtain ⟨x, u, hn, hu⟩ := prefix_append_reach hp hs
      have hx : x = a := by
        obtain ⟨w, hw⟩ := hu
        simp at hw; exact hw.1
      subst hx
      have : n = s ++ x :: u := by
        simp at hn; exact hn.2
      exact ha (by simp [this])
    have hs2 : ¬ (a :: n) <:+: s := fun h => hs (List.infix_cons h)
    rw [List.append_assoc, List.cons_append, strstr,
      if_neg (by rwa [List.isPrefixOf_iff_prefix, ← List.cons_append]),
      ← List.append_assoc, strstr_at a n t ha s hs2]
    rfl

/-- A one-character needle that does not occur is not found. -/
theorem strstr_char_none (c : Char) (s : List Char) (h : c ∉ s) : strstr s [c] = none := by
  rw [strstr_eq_none_iff]
  intro hin
  exact h (List.singleton_sublist.mp hin.sublist)

/-- The text before the first occurrence of a character is the longest prefix
free of that character. -/
theorem strstr_char_take (c : Char) :
    ∀ (s : List Char) (q : Nat), strstr s [c] = some q →
      s.take q = s.takeWhile (fun x => x != c) ∧ s.drop q = c :: s.drop (q + 1)
  | [], q, h => by
    rw [strstr] at h
    simp at h
  | y :: s, q, h => by
    rw [strstr] at h
    by_cases hy : y = c
    · subst hy
      simp at h
      subst h
      simp
    · have : ¬ ([c].isPrefixOf (y :: s) = true) := by
        simp [List.isPrefixOf]
        exact fun h => hy h.symm
      rw [if_neg this] at h
      cases hr : strstr s [c] with
      | none => rw [hr] at h; cases h
      | some k =>
        rw [hr] at h
        simp only [Option.map_some'] at h
        cases h
        obtain ⟨h1, h2⟩ := strstr_char_take c s k hr
        refine ⟨?_, ?_⟩
        · rw [List.take_succ_cons, List.takeWhile_cons, h1]
          simp [hy]
        · simpa using h2

/-- Without any occurrence of the character, the whole text is free of it. -/
theorem strstr_char_none_mem (c : Char) (s : List Char) (h : strstr s [c] = none) : c ∉ s := by
  rw [strstr_eq_none_iff] at h
  intro hm
  exact h (List.singleton_sublist.mpr hm |> fun hs => by
    obtain ⟨a, b, hab⟩ := List.append_of_mem hm
    exact ⟨a, b, by simp [hab]⟩)

/-! ## The parser relative to the method token -/

/-- The query delimiter is not found inside the method token. -/
theorem strstr_param_after_verb (rest : List Char) :
    strstr (VERB_GET ++ rest) HTTP_PARAM = (strstr rest HTTP_PARAM).map (· + 4) := by
  have h := strstr_skip HTTP_PARAM ' ' rest (by decide) "GET".toList (by decide)
  exact h

/-- The protocol marker found from the start of the method token is either the
one that begins at the blank closing the token, or the first one of the text
that follows the token. -/
theorem strstr_protocol_after_verb (rest : List Char) :
    strstr (VERB_GET ++ rest) HTTP_PROTOCOL =
      if HTTP_PROTOCOL <+: ' ' :: rest then some 3
      else (strstr rest HTTP_PROTOCOL).map (· + 4) := by
  have e : VERB_GET ++ rest = 'G' :: 'E' :: 'T' :: ' ' :: rest := rfl
  have hG : HTTP_PROTOCOL.isPrefixOf ('G' :: 'E' :: 'T' :: ' ' :: rest) = false := rfl
  have hE : HTTP_PROTOCOL.isPrefixOf ('E' :: 'T' :: ' ' :: rest) = false := rfl
  have hT : HTTP_PROTOCOL.isPrefixOf ('T' :: ' ' :: rest) = false := rfl
  rw [e, strstr, hG, strstr, hE, strstr, hT, strstr]
  by_cases hp : HTTP_PROTOCOL <+: ' ' :: rest
  · rw [if_pos hp, if_pos (List.isPrefixOf_iff_prefix.mpr hp)]
    rfl
  · have hb : ¬ (HTTP_PROTOCOL.isPrefixOf (' ' :: rest) = true) := by
      rwa [List.isPrefixOf_iff_prefix]
    rw [if_neg hp, if_neg hb]
    cases strstr rest HTTP_PROTOCOL <;> simp

/-- The function `parse_uri` depends on the request only through the text that
follows the first method token. -/
theorem parse_uri_eq_parse_after (request : List Char) (g : Nat)
    (hg : strstr request VERB_GET = some g) :
    parse_uri request = parse_after (request.drop (g + 4)) := by
  have hd : request.drop g = VERB_GET ++ request.drop (g + 4) :=
    strstr_some_drop VERB_GET request g hg
  have hlen : VERB_GET_LEN = 4 := rfl
  have hover : ¬ ((((g + 3 : Nat) : Int) - ((g + 4 : Nat) : Int))
      % ((SIZE_MAX : Int) + 1)).toNat ≤ INT_MAX := by
    simp only [SIZE_MAX, INT_MAX]; push_cast; omega
  have hnat : ∀ k : Nat, ((((g + (k + 4) : Nat) : Int) - ((g + 4 : Nat) : Int))
      % ((SIZE_MAX : Int) + 1)).toNat = k % (SIZE_MAX + 1) := by
    intro k; simp only [SIZE_MAX]; push_cast; omega
  unfold parse_uri parse_after copy_target
  simp only [hg, hd, strstr_param_after_verb, strstr_protocol_after_verb, hlen]
  by_cases hp : HTTP_PROTOCOL <+: ' ' :: request.drop (g + 4)
  · simp only [if_pos hp, Option.map_some']
    cases hq : strstr (request.drop (g + 4)) HTTP_PARAM with
    | none =>
      simp only [Option.map_none', if_neg hover]
    | some q =>
      have h1 : ¬ (g + (q + 4) > g + 4 ∧ g + (q + 4) < g + 3) := by omega
      simp only [Option.map_some', if_neg h1, if_neg hover]
  · simp only [if_neg hp]
    cases hh : strstr (request.drop (g + 4)) HTTP_PROTOCOL with
    | none => rfl
    | some h =>
      simp only [Option.map_some']
      cases hq : strstr (request.drop (g + 4)) HTTP_PARAM with
      | none =>
        simp only [Option.map_none', hnat]
      | some q =>
        simp only [Option.map_some']
        by_cases hc : 0 < q ∧ q < h
        · have h1 : g + (q + 4) > g + 4 ∧ g + (q + 4) < g + (h + 4) := by omega
          simp only [if_pos h1, if_pos hc, hnat]
        · have h1 : ¬ (g + (q + 4) > g + 4 ∧ g + (q + 4) < g + (h + 4)) := by omega
          simp only [if_neg h1, if_neg hc, hnat]

/-- A target of at most `INT_MAX` characters is copied whole. -/
theorem copy_target_fits (rest : List Char) (n : Nat) (hn : n ≤ INT_MAX) :
    copy_target rest n = .ok (rest.take n) := by
  have hmod : n % (SIZE_MAX + 1) = n := by
    apply Nat.mod_eq_of_lt
    simp only [INT_MAX, SIZE_MAX] at hn ⊢
    omega
  unfold copy_target
  rw [hmod, if_pos hn]

/-- An offset returned by `strstr` for a non-empty needle lies inside the text. -/
theorem strstr_some_lt (needle s : List Char) (i : Nat) (hne : needle ≠ [])
    (h : strstr s needle = some i) : i < s.length := by
  have hd := strstr_some_drop needle s i h
  have hl := congrArg List.length hd
  rw [List.length_drop, List.length_append] at hl
  have hpos : 0 < needle.length := List.length_pos.mpr hne
  omega

/-- The first method token of a request that begins with it is at offset 0. -/
theorem strstr_verb_at_start (t : List Char) : strstr (VERB_GET ++ t) VERB_GET = some 0 :=
  strstr_at 'G' "ET ".toList t (by decide) [] (by simp)

/-- The blank that closes the method token starts a protocol marker exactly when
the text after the token begins with the rest of the marker. -/
theorem protocol_at_blank_iff (rest : List Char) :
    HTTP_PROTOCOL <+: ' ' :: rest ↔ "HTTP/1".toList <+: rest := by
  have e : HTTP_PROTOCOL = ' ' :: "HTTP/1".toList := rfl
  rw [e, List.cons_prefix_cons]
  simp

/-- A text that begins with a slash does not begin with the rest of a protocol
marker. -/
theorem not_protocol_of_slash (p t : List Char) (hp : "/".toList <+: p) :
    ¬ HTTP_PROTOCOL <+: ' ' :: (p ++ t) := by
  obtain ⟨p', rfl⟩ := hp
  rw [protocol_at_blank_iff]
  intro h
  have e : "HTTP/1".toList = 'H' :: "TTP/1".toList := rfl
  have e2 : "/".toList ++ p' ++ t = '/' :: (p' ++ t) := by simp
  rw [e, e2, List.cons_prefix_cons] at h
  exact absurd h.1 (by decide)

/-- Taking the longest prefix that satisfies a test twice changes nothing. -/
theorem takeWhile_idem (p : Char → Bool) :
    ∀ l : List Char, (l.takeWhile p).takeWhile p = l.takeWhile p
  | [] => rfl
  | x :: l => by
    by_cases hx : p x = true
    · simp [List.takeWhile_cons, hx, takeWhile_idem p l]
    · simp [List.takeWhile_cons, hx]

/-- The text at the blank that closes the method token. -/
theorem drop_at_blank (request : List Char) (g : Nat)
    (hg : strstr request VERB_GET = some g) :
    request.drop (g + 3) = ' ' :: request.drop (g + 4) := by
  have hd : request.drop g = VERB_GET ++ request.drop (g + 4) :=
    strstr_some_drop VERB_GET request g hg
  have e : request.drop (g + 3) = (request.drop g).drop 3 := by
    rw [List.drop_drop, Nat.add_comm]
  rw [e, hd]
  rfl

/-- A target that is copied is a prefix of the text, no longer than asked for. -/
theorem copy_target_ok (rest t : List Char) (n : Nat) (h : copy_target rest n = .ok t) :
    ∃ m, m ≤ n ∧ t = rest.take m := by
  unfold copy_target at h
  split at h
  · cases h
    exact ⟨n % (SIZE_MAX + 1), Nat.mod_le n _, rfl⟩
  · cases h

/-! ## C2: query strings are stripped -/

/-- The parse of a request line with a query string: the target is the path. -/
theorem parse_after_with_query (p q : List Char)
    (hslash : "/".toList <+: p) (hparam : '?' ∉ p)
    (hp : ¬ HTTP_PROTOCOL <:+: p) (hq : ¬ HTTP_PROTOCOL <:+: q) :
    parse_after (p ++ "?".toList ++ q ++ " HTTP/1.1\r\n".toList)
      = copy_target (p ++ "?".toList ++ q ++ " HTTP/1.1\r\n".toList) p.length := by
  have e1 : p ++ "?".toList ++ q ++ " HTTP/1.1\r\n".toList
      = p ++ '?' :: (q ++ (' ' :: "HTTP/1".toList) ++ ".1\r\n".toList) := by
    simp
  have e2 : p ++ "?".toList ++ q ++ " HTTP/1.1\r\n".toList
      = p ++ ('?' :: []) ++ (q ++ " HTTP/1.1\r\n".toList) := by
    simp
  have hno := not_protocol_of_slash p ("?".toList ++ q ++ " HTTP/1.1\r\n".toList) hslash
  rw [← List.append_assoc, ← List.append_assoc] at hno
  have hh : strstr (p ++ "?".toList ++ q ++ " HTTP/1.1\r\n".toList) HTTP_PROTOCOL
      = some (q.length + (p.length + 1)) := by
    rw [e1, strstr_skip HTTP_PROTOCOL '?' _ (by decide) p hp]
    have hat : strstr (q ++ (' ' :: "HTTP/1".toList) ++ ".1\r\n".toList) HTTP_PROTOCOL
        = some q.length :=
      strstr_at ' ' "HTTP/1".toList ".1\r\n".toList (by decide) q hq
    rw [hat]
    rfl
  have hpar : strstr (p ++ "?".toList ++ q ++ " HTTP/1.1\r\n".toList) HTTP_PARAM
      = some p.length := by
    rw [e2]
    exact strstr_at '?' [] _ (by simp) p (fun h => hparam (List.singleton_sublist.mp h.sublist))
  have hpos : 0 < p.length := by
    obtain ⟨p', rfl⟩ := hslash
    simp
  unfold parse_after
  rw [if_neg hno]
  simp only [hh, hpar]
  rw [if_pos (by omega)]

/-- The parse of a request line without a query string: the target is the path. -/
theorem parse_after_without_query (p : List Char)
    (hslash : "/".toList <+: p) (hparam : '?' ∉ p) (hp : ¬ HTTP_PROTOCOL <:+: p) :
    parse_after (p ++ " HTTP/1.1\r\n".toList)
      = copy_target (p ++ " HTTP/1.1\r\n".toList) p.length := by
  have e1 : p ++ " HTTP/1.1\r\n".toList = p ++ (' ' :: "HTTP/1".toList) ++ ".1\r\n".toList := by
    simp
  have hno := not_protocol_of_slash p " HTTP/1.1\r\n".toList hslash
  have hh : strstr (p ++ " HTTP/1.1\r\n".toList) HTTP_PROTOCOL = some p.length := by
    rw [e1]
    exact strstr_at ' ' "HTTP/1".toList ".1\r\n".toList (by decide) p hp
  have hpar : strstr (p ++ " HTTP/1.1\r\n".toList) HTTP_PARAM = none := by
    apply strstr_char_none
    intro hm
    rw [List.mem_append] at hm
    rcases hm with hm | hm
    · exact hparam hm
    · exact absurd hm (by decide)
  unfold parse_after
  rw [if_neg hno]
  simp only [hh, hpar]

/-- Both request lines of a path `p`, with and without a query string, are
parsed by copying the first `p.length` characters after the method token. -/
theorem parse_uri_path_lines (p q : List Char)
    (hslash : "/".toList <+: p) (hparam : '?' ∉ p)
    (hp : ¬ HTTP_PROTOCOL <:+: p) (hq : ¬ HTTP_PROTOCOL <:+: q) :
    parse_uri ("GET ".toList ++ p ++ "?".toList ++ q ++ " HTTP/1.1\r\n".toList)
      = copy_target (p ++ "?".toList ++ q ++ " HTTP/1.1\r\n".toList) p.length
    ∧ parse_uri ("GET ".toList ++ p ++ " HTTP/1.1\r\n".toList)
      = copy_target (p ++ " HTTP/1.1\r\n".toList) p.length := by
  have a1 : "GET ".toList ++ p ++ "?".toList ++ q ++ " HTTP/1.1\r\n".toList
      = VERB_GET ++ (p ++ "?".toList ++ q ++ " HTTP/1.1\r\n".toList) := by
    simp [VERB_GET]
  have a2 : "GET ".toList ++ p ++ " HTTP/1.1\r\n".toList
      = VERB_GET ++ (p ++ " HTTP/1.1\r\n".toList) := by
    simp [VERB_GET]
  constructor
  · rw [a1, parse_uri_eq_parse_after _ 0 (strstr_verb_at_start _)]
    exact parse_after_with_query p q hslash hparam hp hq
  · rw [a2, parse_uri_eq_parse_after _ 0 (strstr_verb_at_start _)]
    exact parse_after_without_query p hslash hparam hp

/-- For every path `p` of at most `INT_MAX` characters that begins with a slash
and contains neither the query delimiter nor the protocol marker, and every
query string `q` without the protocol marker, `parse_uri` returns exactly `p`
both for the request line with the query string and for the one without it,
and `do_work` resolves both requests alike. -/
theorem parse_uri_strips_short_query (p q : List Char)
    (hslash : "/".toList <+: p) (hparam : '?' ∉ p)
    (hp : ¬ HTTP_PROTOCOL <:+: p) (hq : ¬ HTTP_PROTOCOL <:+: q)
    (hlen : p.length ≤ INT_MAX) :
    parse_uri ("GET ".toList ++ p ++ "?".toList ++ q ++ " HTTP/1.1\r\n".toList) = .ok p
    ∧ parse_uri ("GET ".toList ++ p ++ " HTTP/1.1\r\n".toList) = .ok p
    ∧ ∀ fopen, do_work fopen ("GET ".toList ++ p ++ "?".toList ++ q ++ " HTTP/1.1\r\n".toList)
        = do_work fopen ("GET ".toList ++ p ++ " HTTP/1.1\r\n".toList) := by
  obtain ⟨l1, l2⟩ := parse_uri_path_lines p q hslash hparam hp hq
  have r1 : parse_uri ("GET ".toList ++ p ++ "?".toList ++ q ++ " HTTP/1.1\r\n".toList)
      = .ok p := by
    rw [l1, copy_target_fits _ _ hlen]
    simp [List.append_assoc]
  have r2 : parse_uri ("GET ".toList ++ p ++ " HTTP/1.1\r\n".toList) = .ok p := by
    rw [l2, copy_target_fits _ _ hlen]
    simp
  refine ⟨r1, r2, ?_⟩
  intro fopen
  unfold do_work
  rw [r1, r2]

/-- The counterexample to C1 as stated: in `GET ?a?b HTTP/1.1` the text between
the method token and the protocol marker contains query delimiters, so the
target described by the specification is empty (and would be `?a` if the
delimiter had to follow the first target character), whereas `parse_uri`
returns the whole text `?a?b`. -/
theorem parse_uri_spec_target_counterexample :
    spec_target "GET ?a?b HTTP/1.1\r\n".toList = some []
    ∧ parse_uri "GET ?a?b HTTP/1.1\r\n".toList = .ok "?a?b".toList :=
  ⟨rfl, rfl⟩

/-- What the choice of `pos_end` at line 207 amounts to: the text up to the
protocol marker at offset `h`, cut at its first query delimiter unless that
delimiter is the very first character, is the prefix of some length `n ≤ h`,
and it is this length that the copy loop is run with. -/
theorem param_cut (rest : List Char) (h : Nat) :
    ∃ n, n ≤ h
      ∧ (if rest.head? = some '?' then rest.take h
         else (rest.take h).takeWhile (fun c => c != '?')) = rest.take n
      ∧ (match strstr rest HTTP_PARAM with
         | some q => if 0 < q ∧ q < h then copy_target rest q else copy_target rest h
         | none => copy_target rest h) = copy_target rest n := by
  cases hq : strstr rest HTTP_PARAM with
  | none =>
    have hno : '?' ∉ rest := strstr_char_none_mem '?' rest hq
    have hhead : ¬ (rest.head? = some '?') := by
      intro hc
      cases rest with
      | nil => simp at hc
      | cons x xs => simp at hc; subst hc; simp at hno
    refine ⟨h, Nat.le_refl h, ?_, rfl⟩
    rw [if_neg hhead, List.takeWhile_eq_self_iff]
    intro x hx
    have hx2 : x ∈ rest := List.mem_of_mem_take hx
    simp only [bne_iff_ne, ne_eq]
    intro hxe
    exact hno (hxe ▸ hx2)
  | some q =>
    obtain ⟨htake, hdrop⟩ := strstr_char_take '?' rest q hq
    by_cases hq0 : q = 0
    · subst hq0
      have hhead : rest.head? = some '?' := by
        rw [List.drop_zero] at hdrop
        rw [hdrop]; rfl
      refine ⟨h, Nat.le_refl h, ?_, ?_⟩
      · rw [if_pos hhead]
      · simp only [Nat.lt_irrefl, false_and, if_false]
    · have hhead : ¬ (rest.head? = some '?') := by
        intro hc
        cases rest with
        | nil => simp at hc
        | cons x xs =>
          simp at hc; subst hc
          cases q with
          | zero => exact hq0 rfl
          | succ k => simp at htake
      by_cases hlt : q < h
      · refine ⟨q, Nat.le_of_lt hlt, ?_, ?_⟩
        · rw [if_neg hhead, htake]
          have e : rest.take h = rest.take q ++ (rest.drop q).take (h - q) := by
            rw [← List.take_append_drop q (rest.take h), List.take_take, List.drop_take,
              Nat.min_eq_left (Nat.le_of_lt hlt)]
          rw [e, hdrop, htake, List.takeWhile_append]
          have hlen : (List.takeWhile (fun x => x != '?')
              (List.takeWhile (fun x => x != '?') rest)).length
              = (List.takeWhile (fun x => x != '?') rest).length := by
            rw [takeWhile_idem]
          rw [if_pos hlen]
          have hpos : h - q = (h - q - 1) + 1 := by omega
          rw [hpos, List.take_succ_cons]
          simp
        · simp only [if_pos (And.intro (Nat.pos_of_ne_zero hq0) hlt)]
      · refine ⟨h, Nat.le_refl h, ?_, ?_⟩
        · rw [if_neg hhead, List.takeWhile_eq_self_iff]
          intro x hx
          have hle : h ≤ q := Nat.le_of_not_lt hlt
          have hx2 : x ∈ rest.take q := by
            have e : rest.take h = (rest.take q).take h := by
              rw [List.take_take, Nat.min_eq_left hle]
            rw [e] at hx
            exact List.mem_of_mem_take hx
          rw [htake] at hx2
          exact @List.mem_takeWhile_imp _ (fun c => c != '?') _ _ hx2
        · simp only [if_neg (fun hc : 0 < q ∧ q < h => hlt hc.2)]

/-- C1 (amended): for every request whose first method token is at offset `g`,
whose text following that token has its first protocol marker at offset `h`,
and in which no protocol marker begins at the blank closing the method token,
let the target be the text that starts just after the method token and ends
at the protocol marker, cut at its first query delimiter unless that delimiter
is the very first character after the method token; if this target is at most
`INT_MAX` characters long, `parse_uri` returns exactly it. -/
theorem parse_uri_target (request : List Char) (g h : Nat)
    (hg : strstr request VERB_GET = some g)
    (hh : strstr (request.drop (g + 4)) HTTP_PROTOCOL = some h)
    (hblank : ¬ HTTP_PROTOCOL <+: request.drop (g + 3))
    (hlen : (if (request.drop (g + 4)).head? = some '?' then (request.drop (g + 4)).take h
       else ((request.drop (g + 4)).take h).takeWhile (fun c => c != '?')).length
        ≤ INT_MAX) :
    parse_uri request = .ok
      (if (request.drop (g + 4)).head? = some '?' then (request.drop (g + 4)).take h
       else ((request.drop (g + 4)).take h).takeWhile (fun c => c != '?')) := by
  rw [drop_at_blank request g hg] at hblank
  rw [parse_uri_eq_parse_after request g hg]
  generalize request.drop (g + 4) = rest at hh hblank hlen
  have hin : h < rest.length := strstr_some_lt HTTP_PROTOCOL rest h (by decide) hh
  obtain ⟨n, hn, htarget, hcopy⟩ := param_cut rest h
  rw [htarget] at hlen ⊢
  have hfit : n ≤ INT_MAX := by
    rw [List.length_take] at hlen
    omega
  unfold parse_after
  rw [if_neg hblank]
  simp only [hh]
  rw [hcopy, copy_target_fits rest n hfit]

/-- The witness of C1 (amended): the request line `GET /a.css?x=1 HTTP/1.1`. -/
theorem parse_uri_target_witness :
    strstr "GET /a.css?x=1 HTTP/1.1\r\n".toList VERB_GET = some 0
    ∧ strstr ("GET /a.css?x=1 HTTP/1.1\r\n".toList.drop (0 + 4)) HTTP_PROTOCOL = some 10
    ∧ parse_uri "GET /a.css?x=1 HTTP/1.1\r\n".toList = .ok "/a.css".toList :=
  ⟨rfl, rfl,
    parse_uri_target "GET /a.css?x=1 HTTP/1.1\r\n".toList 0 10 rfl rfl (by decide)
      (by decide)⟩

/-! ## C3: requests that are rejected -/

/-- C3 (failing input): the request `GET HTTP/1` contains the method token and
the text that follows it holds no protocol marker, yet `parse_uri` does not
reject it: `strstr(pos_get, " HTTP/1")` finds the marker that begins at the
blank closing the method token, the guard of line 201 passes, the length is
`-1` stored in a `size_t`, and the copy loop leaves defined behaviour.  The
request `POST / HTTP/1.1` has no method token and hands NULL to `strstr` at
line 195, before the guard is reached.  The request `GET /x` is rejected by
the guard. -/
theorem parse_uri_unguarded :
    (strstr "GET HTTP/1\r\n".toList VERB_GET = some 0
      ∧ strstr ("GET HTTP/1\r\n".toList.drop (0 + 4)) HTTP_PROTOCOL = none
      ∧ parse_uri "GET HTTP/1\r\n".toList = .error .undefined_behaviour)
    ∧ (strstr "POST / HTTP/1.1\r\n".toList VERB_GET = none
      ∧ parse_uri "POST / HTTP/1.1\r\n".toList = .error .null_dereference)
    ∧ parse_uri "GET /x\r\n".toList = .error .exit_failure :=
  ⟨⟨rfl, rfl, rfl⟩, ⟨rfl, rfl⟩, rfl⟩

/-! ## C4: query delimiters in the target -/

/-- The counterexample to C4 as stated: the target of `GET ?x HTTP/1.1` is
`?x`, which contains the query delimiter. -/
theorem parse_uri_keeps_leading_query :
    parse_uri "GET ?x HTTP/1.1\r\n".toList = .ok "?x".toList
    ∧ '?' ∈ "?x".toList :=
  ⟨rfl, by decide⟩

/-- A request that `parse_uri` accepts contains the method token. -/
theorem parse_uri_ok_token (request t : List Char) (h : parse_uri request = .ok t) :
    ∃ g, strstr request VERB_GET = some g := by
  cases hg : strstr request VERB_GET with
  | none =>
    unfold parse_uri at h
    rw [hg] at h
    cases h
  | some g => exact ⟨g, rfl⟩

/-- C4 (amended): for every request that `parse_uri` accepts, the returned
target contains no query delimiter, unless the target begins with one. -/
theorem parse_uri_no_query (request t : List Char)
    (hok : parse_uri request = .ok t) (hhead : t.head? ≠ some '?') :
    '?' ∉ t := by
  obtain ⟨g, hg⟩ := parse_uri_ok_token request t hok
  rw [parse_uri_eq_parse_after request g hg] at hok
  generalize request.drop (g + 4) = rest at hok
  unfold parse_after at hok
  split at hok
  · cases hok
  · cases hh : strstr rest HTTP_PROTOCOL with
    | none => rw [hh] at hok; cases hok
    | some h =>
      have hfree : ∀ q, strstr rest HTTP_PARAM = some q → ∀ n, n ≤ q → '?' ∉ rest.take n := by
        intro q hq n hn hm
        obtain ⟨htake, _⟩ := strstr_char_take '?' rest q hq
        have e : rest.take n = (rest.take q).take n := by
          rw [List.take_take, Nat.min_eq_left hn]
        rw [e, htake] at hm
        have := @List.mem_takeWhile_imp _ (fun c => c != '?') _ _ (List.mem_of_mem_take hm)
        simp at this
      cases hq : strstr rest HTTP_PARAM with
      | none =>
        simp only [hh, hq] at hok
        obtain ⟨m, _, rfl⟩ := copy_target_ok rest t h hok
        intro hm
        exact strstr_char_none_mem '?' rest hq (List.mem_of_mem_take hm)
      | some q =>
        simp only [hh, hq] at hok
        by_cases hc : 0 < q ∧ q < h
        · rw [if_pos hc] at hok
          obtain ⟨m, hm, rfl⟩ := copy_target_ok rest t q hok
          exact hfree q hq m hm
        · rw [if_neg hc] at hok
          obtain ⟨m, hm, rfl⟩ := copy_target_ok rest t h hok
          by_cases hq0 : q = 0
          · subst hq0
            obtain ⟨_, hdrop⟩ := strstr_char_take '?' rest 0 hq
            rw [List.drop_zero] at hdrop
            cases m with
            | zero => simp
            | succ k =>
              rw [hdrop, List.take_succ_cons] at hhead
              exact absurd rfl hhead
          · exact hfree q hq m (by omega)

/-- The witness of C4 (amended): the request line `GET /a.css?x=1 HTTP/1.1`. -/
theorem parse_uri_no_query_witness :
    parse_uri "GET /a.css?x=1 HTTP/1.1\r\n".toList = .ok "/a.css".toList
    ∧ '?' ∉ "/a.css".toList :=
  ⟨rfl, parse_uri_no_query "GET /a.css?x=1 HTTP/1.1\r\n".toList "/a.css".toList rfl
    (by decide)⟩

/-! ## Facts about `strrchr` and `get_extension` -/

/-- A character that does not occur has no last occurrence. -/
theorem strrchr_none (c : Char) : ∀ s : List Char, c ∉ s → strrchr s c = none
  | [], _ => rfl
  | x :: s, h => by
    have h1 : c ∉ s := fun hm => h (List.mem_cons_of_mem x hm)
    have h2 : ¬ x = c := fun he => h (he ▸ List.mem_cons_self x s)
    rw [strrchr, strrchr_none c s h1]
    simp [h2]

/-- The last occurrence of `c` in `stem ++ c :: e`, when `e` is free of `c`. -/
theorem strrchr_last (c : Char) (e : List Char) (he : c ∉ e) :
    ∀ stem : List Char, strrchr (stem ++ c :: e) c = some stem.length
  | [] => by
    rw [List.nil_append, strrchr, strrchr_none c e he]
    simp
  | x :: stem => by
    rw [List.cons_append, strrchr, strrchr_last c e he stem]
    rfl

/-- The extension of `stem.e`, when `e` has no dot, is `e`. -/
theorem get_extension_last (stem e : List Char) (he : '.' ∉ e) :
    get_extension (stem ++ '.' :: e) = some e := by
  unfold get_extension
  rw [strrchr_last '.' e he stem]
  simp

/-- A path with an extension is neither the root path nor the bad string. -/
theorem extension_path_ne (stem e : List Char) (he : e ≠ []) (hd : '.' ∉ e) :
    stem ++ '.' :: e ≠ "/".toList ∧ stem ++ '.' :: e ≠ BAD_STRING := by
  constructor
  · intro h
    have h1 := get_extension_last stem e hd
    rw [h] at h1
    have h2 : get_extension "/".toList = none := rfl
    rw [h2] at h1
    cases h1
  · intro h
    have h1 := get_extension_last stem e hd
    rw [h] at h1
    have h2 : get_extension BAD_STRING = some [] := rfl
    rw [h2] at h1
    exact he (Option.some.inj h1).symm

/-- Every extension of the table is non-empty and free of dots, and the chain
of comparisons of `create_response` maps it to the content type line of its
MIME string. -/
theorem table_entry : ∀ x ∈ content_type_table,
    x.1 ≠ [] ∧ '.' ∉ x.1 ∧
    (if x.1 = "html".toList then CONTENT_TYPE "text/html;".toList
     else if x.1 = "js".toList then CONTENT_TYPE "text/javascript;".toList
     else if x.1 = "css".toList then CONTENT_TYPE "text/css;".toList
     else if x.1 = "ico".toList then CONTENT_TYPE "image/icon;".toList
     else if x.1 = "jpg".toList then CONTENT_TYPE "image/jpg;".toList
     else if x.1 = "jpeg".toList then CONTENT_TYPE "image/jpeg;".toList
     else if x.1 = "png".toList then CONTENT_TYPE "image/png;".toList
     else if x.1 = "gif".toList then CONTENT_TYPE "image/gif;".toList
     else if x.1 = "pdf".toList then CONTENT_TYPE "application/pdf;".toList
     else CONTENT_TYPE "application/octet-stream;".toList)
      = "Content-Type:".toList ++ x.2 ++ ";charset=UTF-8\r\n".toList := by
  decide

/-! ## C5: the extension table -/

/-- C5: for every extension `e` of the table with its MIME string `mime`, and
every target `stem.e` (the text after the last dot is exactly `e`) at which a
readable file exists under the root, `create_response` returns the status line
`HTTP/1.1 200 OK`, a content type line made of `Content-Type:` immediately
followed by exactly `mime` (and then `;charset=UTF-8`), and the target itself as
body file. -/
theorem create_response_table (fopen : List Char → Bool) (stem e mime : List Char)
    (htable : (e, mime) ∈ content_type_table)
    (hfile : fopen (BASE_DIR ++ (stem ++ ".".toList ++ e)) = true) :
    create_response fopen (stem ++ ".".toList ++ e) = .ok
      { code := "HTTP/1.1 200 OK\r\n".toList
        content_type := "Content-Type:".toList ++ mime ++ ";charset=UTF-8\r\n".toList
        file := stem ++ ".".toList ++ e } := by
  have e0 : stem ++ ".".toList ++ e = stem ++ '.' :: e := by simp
  rw [e0] at hfile ⊢
  have key : ∀ (hne : e ≠ []) (hd : '.' ∉ e),
      create_response fopen (stem ++ '.' :: e) = .ok
        { code := HTTP_200
          file := stem ++ '.' :: e
          content_type :=
            if e = "html".toList then CONTENT_TYPE "text/html;".toList
            else if e = "js".toList then CONTENT_TYPE "text/javascript;".toList
            else if e = "css".toList then CONTENT_TYPE "text/css;".toList
            else if e = "ico".toList then CONTENT_TYPE "image/icon;".toList
            else if e = "jpg".toList then CONTENT_TYPE "image/jpg;".toList
            else if e = "jpeg".toList then CONTENT_TYPE "image/jpeg;".toList
            else if e = "png".toList then CONTENT_TYPE "image/png;".toList
            else if e = "gif".toList then CONTENT_TYPE "image/gif;".toList
            else if e = "pdf".toList then CONTENT_TYPE "application/pdf;".toList
            else CONTENT_TYPE "application/octet-stream;".toList } := by
    intro hne hd
    obtain ⟨h1, h2⟩ := extension_path_ne stem e hne hd
    unfold create_response
    simp only [if_neg h1, if_neg h2, get_full_path, hfile, if_true,
      get_extension_last stem e hd]
  obtain ⟨hne, hd, hline⟩ := table_entry (e, mime) htable
  rw [key hne hd]
  exact congrArg (fun line => Except.ok (http_response.mk HTTP_200 line (stem ++ '.' :: e))) hline

/-- The witness of C5: the style sheet `/a.css` exists under the root. -/
theorem create_response_table_witness :
    create_response (fun p => p = "public/a.css".toList) "/a.css".toList = .ok
      { code := "HTTP/1.1 200 OK\r\n".toList
        content_type := "Content-Type:text/css;charset=UTF-8\r\n".toList
        file := "/a.css".toList } :=
  create_response_table (fun p => p = "public/a.css".toList) "/a".toList "css".toList
    "text/css".toList (by decide) (by decide)

/-! ## C6: targets without an extension -/

/-- C6 (failing input): the target `/README` has no dot and a readable file
exists at `public/README`; `get_extension` returns NULL and the first `strcmp`
of `create_response` reads through it, so no response is produced. -/
theorem create_response_extensionless :
    get_extension "/README".toList = none
    ∧ create_response (fun p => p = "public/README".toList) "/README".toList
        = .error .null_dereference :=
  ⟨rfl, rfl⟩

/-! ## C7: missing files -/

/-- C7: for every target other than `..` for which no readable file exists at
root + target (the target `/` being first replaced by `/index.html`),
`create_response` returns the status line `HTTP/1.1 404 Not Found`, the
`text/html` content type and the fallback body `/404.html`; and for every
request that `parse_uri` parses to this target, `do_work` obtains this
response and resolves its body against the root to `public/404.html`. -/
theorem create_response_missing (fopen : List Char → Bool) (uri : List Char)
    (hbad : uri ≠ "..".toList)
    (hfile : fopen (BASE_DIR ++ (if uri = "/".toList then "/index.html".toList else uri))
      = false) :
    create_response fopen uri = .ok
      { code := "HTTP/1.1 404 Not Found\r\n".toList
        content_type := "Content-Type:text/html;charset=UTF-8\r\n".toList
        file := "/404.html".toList }
    ∧ ∀ request, parse_uri request = .ok uri →
        do_work fopen request = .ok
          ({ code := "HTTP/1.1 404 Not Found\r\n".toList
             content_type := "Content-Type:text/html;charset=UTF-8\r\n".toList
             file := "/404.html".toList },
           "public/404.html".toList) := by
  have hbad2 : ¬ uri = BAD_STRING := hbad
  have hresp : create_response fopen uri = .ok
      { code := "HTTP/1.1 404 Not Found\r\n".toList
        content_type := "Content-Type:text/html;charset=UTF-8\r\n".toList
        file := "/404.html".toList } := by
    unfold create_response
    simp only [if_neg hbad2, get_full_path, hfile]
    rfl
  refine ⟨hresp, ?_⟩
  intro request hreq
  unfold do_work
  rw [hreq]
  simp only [hresp]
  rfl

/-- The witness of C7: the request line `GET /nope.bin HTTP/1.1` in an empty
root. -/
theorem create_response_missing_witness :
    parse_uri "GET /nope.bin HTTP/1.1\r\n".toList = .ok "/nope.bin".toList
    ∧ create_response (fun _ => false) "/nope.bin".toList = .ok
        { code := "HTTP/1.1 404 Not Found\r\n".toList
          content_type := "Content-Type:text/html;charset=UTF-8\r\n".toList
          file := "/404.html".toList }
    ∧ do_work (fun _ => false) "GET /nope.bin HTTP/1.1\r\n".toList = .ok
        ({ code := "HTTP/1.1 404 Not Found\r\n".toList
           content_type := "Content-Type:text/html;charset=UTF-8\r\n".toList
           file := "/404.html".toList },
         "public/404.html".toList) :=
  have h := create_response_missing (fun _ => false) "/nope.bin".toList (by decide) rfl
  ⟨rfl, h.1, h.2 "GET /nope.bin HTTP/1.1\r\n".toList rfl⟩

/-! ## C8: the default document -/

/-- C8: in every state of the file system, `create_response` produces a response
for the target `/`, and it is the response (status line, content type and body
file) it produces for the target `/index.html`. -/
theorem create_response_root (fopen : List Char → Bool) :
    ∃ r, create_response fopen "/".toList = .ok r
      ∧ create_response fopen "/index.html".toList = .ok r := by
  have e1 : get_extension "/index.html".toList = some "html".toList := rfl
  have n1 : ¬ "/".toList = BAD_STRING := by decide
  have n2 : ¬ "/index.html".toList = BAD_STRING := by decide
  have n3 : ¬ "/index.html".toList = "/".toList := by decide
  unfold create_response
  simp only [if_neg n1, if_neg n2, if_neg n3, if_true, e1]
  cases fopen (get_full_path "/index.html".toList) <;> simp

/-! ## C9: the bad string -/

/-- C9: in every state of the file system, `create_response` answers the target
`..` with the status line `HTTP/1.1 400 Bad Request`, the `text/html` content
type and the fallback body `/400.html`; and for every target different from
`..` the status line of a response is never the 400 one. -/
theorem create_response_bad_string (fopen : List Char → Bool) (uri : List Char) :
    create_response fopen "..".toList = .ok
      { code := "HTTP/1.1 400 Bad Request\r\n".toList
        content_type := "Content-Type:text/html;charset=UTF-8\r\n".toList
        file := "/400.html".toList }
    ∧ (uri ≠ "..".toList → ∀ r, create_response fopen uri = .ok r →
        r.code ≠ "HTTP/1.1 400 Bad Request\r\n".toList) := by
  refine ⟨rfl, ?_⟩
  intro hbad r hr
  have hbad2 : ¬ uri = BAD_STRING := hbad
  unfold create_response at hr
  rw [if_neg hbad2] at hr
  dsimp only at hr
  cases hf : fopen (get_full_path (if uri = "/".toList then "/index.html".toList else uri)) with
  | false =>
    rw [hf, if_neg Bool.false_ne_true] at hr
    cases hr
    show HTTP_404 ≠ _
    decide
  | true =>
    rw [hf, if_pos rfl] at hr
    cases he : get_extension (if uri = "/".toList then "/index.html".toList else uri) with
    | none =>
      rw [he] at hr
      cases hr
    | some ext =>
      rw [he] at hr
      cases hr
      show HTTP_200 ≠ _
      decide

/-- The witness of C9: the target `/a.css`, present under the root. -/
theorem create_response_bad_string_witness :
    "/a.css".toList ≠ "..".toList
    ∧ create_response (fun _ => true) "/a.css".toList = .ok
        { code := HTTP_200
          content_type := CONTENT_TYPE "text/css;".toList
          file := "/a.css".toList }
    ∧ HTTP_200 ≠ "HTTP/1.1 400 Bad Request\r\n".toList :=
  ⟨by decide, rfl,
    (create_response_bad_string (fun _ => true) "/a.css".toList).2 (by decide)
      { code := HTTP_200
        content_type := CONTENT_TYPE "text/css;".toList
        file := "/a.css".toList } rfl⟩

/-! ## C10: the root sandbox -/

/-- C10 (failing input): a readable file exists at `public/../etc/passwd`; the
target `/../etc/passwd` differs from the bad string, so `create_response`
answers it with the status line `HTTP/1.1 200 OK` and the target itself, whose
first path segment is `..`, as body file, which `get_full_path` resolves to
`public/../etc/passwd`. -/
theorem create_response_traversal :
    create_response (fun p => p = "public/../etc/passwd".toList) "/../etc/passwd".toList
      = .ok
        { code := "HTTP/1.1 200 OK\r\n".toList
          content_type := "Content-Type:application/octet-stream;charset=UTF-8\r\n".toList
          file := "/../etc/passwd".toList }
    ∧ get_full_path "/../etc/passwd".toList = "public/../etc/passwd".toList
    ∧ "/../".toList <+: "/../etc/passwd".toList :=
  ⟨rfl, rfl, by decide⟩

end SimpleWebServer
